import Mathlib

set_option maxRecDepth 10000

/-!
Verification development for the CPython `_blake3` modules.

The repository contains two wrapper variants:
  * `Modules/_blake3/blake3module.c`  (mainline wrapper: `data`/`key`/`context`
    construction, `update`, `digest`, `hexdigest`, `copy`)
  * `Modules/_blake3module.c`         (hardened wrapper: `digest_size` policy,
    module-level `derive_key`)

The BLAKE3 engine itself (`blake3_hasher_init`, `blake3_hasher_update`,
`blake3_hasher_finalize_seek`, ...) is vendored under `Modules/_blake3/impl/`
and is not part of the repository sources; it is modelled here from the
specification (sections 4.1-4.5), which describes the reference algorithm:
the compression core, the chunk processor, the right-edge-stack tree reducer
and the seekable XOF finalization.

Machine integers are modelled as `Nat` reduced modulo `2^32` where the engine
uses 32-bit words; byte streams are `List Nat` with every element below 256.
-/

namespace Blake3

/-- Modelled from the spec: the fixed standard initial chaining value of the
default mode (spec 4.5, "initial chaining value is the fixed standard
constant"); these are the eight BLAKE3/SHA-256 IV words. -/
def IV : List Nat :=
  [0x6A09E667, 0xBB67AE85, 0x3C6EF372, 0xA54FF53A,
   0x510E527F, 0x9B05688C, 0x1F83D9AB, 0x5BE0CD19]

/-- Modelled from the spec: the fixed message mixing schedule of the
compression core (spec 4.1, "a fixed round count and fixed mixing schedule"). -/
def MSG_PERMUTATION : List Nat := [2, 6, 3, 10, 7, 0, 4, 13, 1, 11, 12, 5, 9, 14, 15, 8]

/-- Flag bit set on the first block of each chunk (spec 4.2). -/
def CHUNK_START : Nat := 1
/-- Flag bit set on the last block of each chunk (spec 4.2). -/
def CHUNK_END : Nat := 2
/-- Flag bit set on parent-node compressions (spec 4.3). -/
def PARENT : Nat := 4
/-- Flag bit set only on the root compression at finalize time (spec 4.4). -/
def ROOT : Nat := 8
/-- Flag bit of keyed mode (spec 4.5). -/
def KEYED_HASH : Nat := 16
/-- Flag bit of the context-hashing sub-mode of derive-key mode (spec 4.5). -/
def DERIVE_KEY_CONTEXT : Nat := 32
/-- Flag bit of the material-hashing phase of derive-key mode (spec 4.5). -/
def DERIVE_KEY_MATERIAL : Nat := 64

/-- Reduction of a `Nat` to a 32-bit word. -/
def u32 (x : Nat) : Nat := x % 4294967296

/-- 32-bit modular addition. -/
def add32 (a b : Nat) : Nat := (a + b) % 4294967296

/-- 32-bit exclusive or. -/
def xor32 (a b : Nat) : Nat := a ^^^ b

/-- 32-bit right rotation. -/
def rotr32 (x n : Nat) : Nat := ((x >>> n) ||| (x <<< (32 - n))) % 4294967296

/-- Modelled from the spec: the quarter-round mixing function `g` of the
compression core, acting on positions `a b c d` of the 16-word state with the
two message words `mx my`. -/
def g (st : List Nat) (a b c d mx my : Nat) : List Nat :=
  let sa := add32 (add32 (st.getD a 0) (st.getD b 0)) mx
  let sd := rotr32 (xor32 (st.getD d 0) sa) 16
  let sc := add32 (st.getD c 0) sd
  let sb := rotr32 (xor32 (st.getD b 0) sc) 12
  let sa2 := add32 (add32 sa sb) my
  let sd2 := rotr32 (xor32 sd sa2) 8
  let sc2 := add32 sc sd2
  let sb2 := rotr32 (xor32 sb sc2) 7
  (((st.set a sa2).set b sb2).set c sc2).set d sd2

/-- Modelled from the spec: one full round of the compression core, mixing the
four columns and then the four diagonals of the state. -/
def roundFn (st m : List Nat) : List Nat :=
  let st := g st 0 4 8 12 (m.getD 0 0) (m.getD 1 0)
  let st := g st 1 5 9 13 (m.getD 2 0) (m.getD 3 0)
  let st := g st 2 6 10 14 (m.getD 4 0) (m.getD 5 0)
  let st := g st 3 7 11 15 (m.getD 6 0) (m.getD 7 0)
  let st := g st 0 5 10 15 (m.getD 8 0) (m.getD 9 0)
  let st := g st 1 6 11 12 (m.getD 10 0) (m.getD 11 0)
  let st := g st 2 7 8 13 (m.getD 12 0) (m.getD 13 0)
  g st 3 4 9 14 (m.getD 14 0) (m.getD 15 0)

/-- Modelled from the spec: the message-word schedule applied between rounds. -/
def permute (m : List Nat) : List Nat := MSG_PERMUTATION.map (fun i => m.getD i 0)

/-- Modelled from the spec (4.1): the compression core.  Maps a 32-byte
chaining value, a 64-byte block (as 16 little-endian words), a 64-bit counter,
the logical block length and a flag bitmask to the full 16-word output state;
the first 8 words form the new chaining value, the full 16 words form the
root output block when `ROOT` is set. -/
def compress (chainingValue blockWords : List Nat) (counter blockLen flags : Nat) : List Nat :=
  let st0 : List Nat :=
    [chainingValue.getD 0 0, chainingValue.getD 1 0, chainingValue.getD 2 0,
     chainingValue.getD 3 0, chainingValue.getD 4 0, chainingValue.getD 5 0,
     chainingValue.getD 6 0, chainingValue.getD 7 0,
     IV.getD 0 0, IV.getD 1 0, IV.getD 2 0, IV.getD 3 0,
     u32 counter, u32 (counter >>> 32), u32 blockLen, u32 flags]
  let s1 := roundFn st0 blockWords
  let m1 := permute blockWords
  let s2 := roundFn s1 m1
  let m2 := permute m1
  let s3 := roundFn s2 m2
  let m3 := permute m2
  let s4 := roundFn s3 m3
  let m4 := permute m3
  let s5 := roundFn s4 m4
  let m5 := permute m4
  let s6 := roundFn s5 m5
  let m6 := permute m5
  let s7 := roundFn s6 m6
  (List.range 8).map (fun i => xor32 (s7.getD i 0) (s7.getD (i + 8) 0))
    ++ (List.range 8).map (fun i => xor32 (s7.getD (i + 8) 0) (chainingValue.getD i 0))

/-- Little-endian word read of four bytes of `bs` starting at index `j`,
zero-padded past the end of the list. -/
def leWordAt (bs : List Nat) (j : Nat) : Nat :=
  bs.getD j 0 + 256 * bs.getD (j + 1) 0 + 65536 * bs.getD (j + 2) 0
    + 16777216 * bs.getD (j + 3) 0

/-- The 16 little-endian words of a (zero-padded) 64-byte block. -/
def wordsOfBytes16 (bs : List Nat) : List Nat :=
  (List.range 16).map (fun i => leWordAt bs (4 * i))

/-- The 8 little-endian words of a 32-byte key. -/
def wordsOfBytes8 (bs : List Nat) : List Nat :=
  (List.range 8).map (fun i => leWordAt bs (4 * i))

/-- The four little-endian bytes of a 32-bit word. -/
def leBytesOfWord (w : Nat) : List Nat :=
  [w % 256, (w >>> 8) % 256, (w >>> 16) % 256, (w >>> 24) % 256]

/-- Little-endian byte serialization of a word list. -/
def bytesOfWords : List Nat → List Nat
  | [] => []
  | w :: ws => leBytesOfWord w ++ bytesOfWords ws

/-- Modelled from the spec (4.2): the chunk processor state: the running
chaining value inside the current chunk, the chunk index, the pending block
bytes, the number of blocks already compressed in this chunk and the mode
flag bits. -/
structure ChunkState where
  chainingValue : List Nat
  chunkCounter : Nat
  block : List Nat
  blocksCompressed : Nat
  flags : Nat
deriving DecidableEq, Repr

/-- A fresh chunk state starting at the mode-resolved chaining value. -/
def ChunkState.new (keyWords : List Nat) (counter flags : Nat) : ChunkState :=
  ⟨keyWords, counter, [], 0, flags⟩

/-- Number of input bytes the current chunk has absorbed. -/
def ChunkState.len (s : ChunkState) : Nat := 64 * s.blocksCompressed + s.block.length

/-- `CHUNK_START` on the first block of the chunk, zero afterwards. -/
def ChunkState.startFlag (s : ChunkState) : Nat :=
  if s.blocksCompressed = 0 then CHUNK_START else 0

/-- Modelled from the spec (4.2): feeding one byte to the chunk processor:
when a full 64-byte block is pending, it is first compressed into the running
chaining value (with `CHUNK_START` on the chunk's first block), then the byte
is appended to the block buffer. -/
def ChunkState.pushByte (s : ChunkState) (b : Nat) : ChunkState :=
  let s2 :=
    if s.block.length = 64 then
      { s with
        chainingValue :=
          (compress s.chainingValue (wordsOfBytes16 s.block) s.chunkCounter 64
            (s.flags ||| s.startFlag)).take 8,
        block := [],
        blocksCompressed := s.blocksCompressed + 1 }
    else s
  { s2 with block := s2.block ++ [b] }

/-- Modelled from the spec (4.1/4.4): a pending compression whose output can
be read either as a chaining value or, with `ROOT` added, as a stream of
64-byte root output blocks. -/
structure OutputState where
  inputChainingValue : List Nat
  blockWords : List Nat
  counter : Nat
  blockLen : Nat
  flags : Nat
deriving DecidableEq, Repr

/-- The 8-word chaining value of a pending compression. -/
def OutputState.chainingValue (o : OutputState) : List Nat :=
  (compress o.inputChainingValue o.blockWords o.counter o.blockLen o.flags).take 8

/-- Modelled from the spec (4.4): the `i`-th 64-byte root output block, one
compression call with `ROOT` set and the output-block index as counter. -/
def OutputState.rootBlockBytes (o : OutputState) (i : Nat) : List Nat :=
  bytesOfWords (compress o.inputChainingValue o.blockWords i o.blockLen (o.flags ||| ROOT))

/-- Concatenation of the first `n` root output blocks, in increasing
output-block-counter order. -/
def OutputState.blocksUpTo (o : OutputState) : Nat → List Nat
  | 0 => []
  | n + 1 => o.blocksUpTo n ++ o.rootBlockBytes n

/-- Modelled from the spec (4.2): the pending chunk folded into a leaf
exactly as on chunk completion: `CHUNK_END` and, when no block of the chunk
was compressed yet, `CHUNK_START` are set, the zero-padded pending block is
the message and the true byte count is the logical block length. -/
def ChunkState.output (s : ChunkState) : OutputState :=
  ⟨s.chainingValue, wordsOfBytes16 s.block, s.chunkCounter, s.block.length,
   s.flags ||| s.startFlag ||| CHUNK_END⟩

/-- Modelled from the spec (4.3): a parent node combining two child chaining
values: message is `left ‖ right`, counter 0, flags `PARENT` plus the mode
flags. -/
def parentOutput (leftCV rightCV keyWords : List Nat) (flags : Nat) : OutputState :=
  ⟨keyWords, leftCV.take 8 ++ rightCV.take 8, 0, 64, PARENT ||| flags⟩

/-- The chaining value of a parent node. -/
def parentCV (leftCV rightCV keyWords : List Nat) (flags : Nat) : List Nat :=
  (parentOutput leftCV rightCV keyWords flags).chainingValue

/-- Modelled from the spec (4.3): pushing a completed chunk's chaining value
onto the right-edge stack, merging with the top while the subtree counts (the
binary-counter bits of the total chunk count) call for an equal-height merge. -/
def addChunkChainingValue (keyWords : List Nat) (flags : Nat) :
    List (List Nat) → List Nat → Nat → List (List Nat)
  | stack, newCV, totalChunks =>
    if totalChunks % 2 = 0 then
      match stack with
      | [] => [newCV]
      | top :: rest =>
          addChunkChainingValue keyWords flags rest
            (parentCV top newCV keyWords flags) (totalChunks / 2)
    else newCV :: stack

/-- Modelled from the spec (3/4.4): the caller-visible accumulator: right-edge
stack (most recently pushed subtree first), the in-progress chunk, the
mode-resolved key words and the mode flag bits. -/
structure Hasher where
  chunkState : ChunkState
  keyWords : List Nat
  cvStack : List (List Nat)
  flags : Nat
deriving DecidableEq, Repr

/-- A hasher with empty stack, zero chunk counter and empty buffers. -/
def Hasher.new (keyWords : List Nat) (flags : Nat) : Hasher :=
  ⟨ChunkState.new keyWords 0 flags, keyWords, [], flags⟩

/-- Modelled from the spec (4.2/4.3): feeding one byte to the hasher: when the
current chunk holds a full 1024 bytes, its leaf chaining value is folded into
the right-edge stack and a fresh chunk with the next index is started; the
byte then goes to the chunk processor. -/
def Hasher.pushByte (h : Hasher) (b : Nat) : Hasher :=
  let h2 :=
    if h.chunkState.len = 1024 then
      { h with
        cvStack :=
          addChunkChainingValue h.keyWords h.flags h.cvStack
            h.chunkState.output.chainingValue (h.chunkState.chunkCounter + 1),
        chunkState := ChunkState.new h.keyWords (h.chunkState.chunkCounter + 1) h.flags }
    else h
  { h2 with chunkState := h2.chunkState.pushByte b }

/-- Modelled from the spec (4.4, append): incremental absorption of a byte
slice, byte by byte. -/
def blake3_hasher_update (self : Hasher) (input : List Nat) : Hasher :=
  input.foldl Hasher.pushByte self

/-- Modelled from the spec (4.4, finalize): the root node: the pending chunk
is folded into a leaf, then the right-edge stack entries (most recent first)
are combined pairwise down to a single root, without mutating the stack or
buffers. -/
def Hasher.finalizeOutput (h : Hasher) : OutputState :=
  h.cvStack.foldl (fun o cv => parentOutput cv o.chainingValue h.keyWords h.flags)
    h.chunkState.output

/-- Modelled from the spec (4.4): reading `len` bytes of root output starting
at byte offset `seek`, one compression per 64-byte output block with an
increasing output-block counter. -/
def blake3_hasher_finalize_seek (self : Hasher) (seek len : Nat) : List Nat :=
  ((self.finalizeOutput.blocksUpTo ((seek + len + 63) / 64)).drop seek).take len

/-- Root output read from logical offset zero, as both wrappers do. -/
def Hasher.finalizeBytes (h : Hasher) (len : Nat) : List Nat :=
  blake3_hasher_finalize_seek h 0 len

/-- Modelled from the spec (4.5, Default): the default-mode hasher. -/
def blake3_hasher_init : Hasher := Hasher.new IV 0

/-- Modelled from the spec (4.5, Keyed): the keyed-mode hasher, chaining value
taken directly from the 32-byte key, `KEYED_HASH` on every compression. -/
def blake3_hasher_init_keyed (key : List Nat) : Hasher :=
  Hasher.new (wordsOfBytes8 key) KEYED_HASH

/-- Modelled from the spec (4.5, DeriveKeyContext): the context is hashed
under `DERIVE_KEY_CONTEXT` to 32 bytes, and that result keys a hasher running
under `DERIVE_KEY_MATERIAL`. -/
def blake3_hasher_init_derive_key_raw (context : List Nat) : Hasher :=
  Hasher.new
    (wordsOfBytes8
      ((blake3_hasher_update (Hasher.new IV DERIVE_KEY_CONTEXT) context).finalizeBytes 32))
    DERIVE_KEY_MATERIAL

/-- Decidable equality of `Except` results, so that concrete wrapper outcomes
can be evaluated. -/
instance {ε α : Type} [DecidableEq ε] [DecidableEq α] : DecidableEq (Except ε α) :=
  fun a b =>
    match a, b with
    | .error e1, .error e2 =>
        if h : e1 = e2 then .isTrue (congrArg Except.error h)
        else .isFalse (fun hh => h (Except.error.inj hh))
    | .ok v1, .ok v2 =>
        if h : v1 = v2 then .isTrue (congrArg Except.ok h)
        else .isFalse (fun hh => h (Except.ok.inj hh))
    | .error _, .ok _ => .isFalse (fun hh => Except.noConfusion hh)
    | .ok _, .error _ => .isFalse (fun hh => Except.noConfusion hh)

/-- Error outcomes of the wrapper layer.  Each constructor stands for one
`PyErr_SetString` site of the sources: `InvalidKeyLength` for ValueError
"key must be exactly 32 bytes long" / "key must be exactly 32 bytes",
`EmptyContext` for ValueError "context must not be empty" / "context must be
non-empty bytes", `ConflictingMode` for TypeError "cannot specify both key
and context", `InvalidOutputLength` for ValueError "length must be positive" /
"length must be 1-65536", `InvalidDigestSize` for ValueError
"digest_size must be 1-65536"; `SystemError` stands for the runtime failure
the mainline hexdigest incurs on the targeted CPython (see
`blake3_hexdigest`). -/
inductive Blake3Error where
  | InvalidKeyLength
  | EmptyContext
  | ConflictingMode
  | InvalidOutputLength
  | InvalidDigestSize
  | SystemError
deriving DecidableEq, Repr

/-- Initial-data handling of `blake3_init` (Modules/_blake3/blake3module.c,
lines 102-104): the hasher absorbs `data` only when it is present and
non-empty. -/
def withData (h : Hasher) (data : Option (List Nat)) : Hasher :=
  match data with
  | some d => if 0 < d.length then blake3_hasher_update h d else h
  | none => h

/-- Embedding of `blake3_init` (Modules/_blake3/blake3module.c, lines 60-116):
key and context are mutually exclusive; a supplied context must be non-empty
and selects derive-key mode; a supplied key must be exactly 32 bytes and
selects keyed mode; otherwise default mode; initial data is then absorbed. -/
def blake3_init (data key context : Option (List Nat)) : Except Blake3Error Hasher :=
  match key, context with
  | some _, some _ => .error .ConflictingMode
  | none, some c =>
      if c.length = 0 then .error .EmptyContext
      else .ok (withData (blake3_hasher_init_derive_key_raw c) data)
  | some k, none =>
      if k.length ≠ 32 then .error .InvalidKeyLength
      else .ok (withData (blake3_hasher_init_keyed k) data)
  | none, none => .ok (withData blake3_hasher_init data)

/-- Embedding of `blake3_update` (Modules/_blake3/blake3module.c, lines
149-161): feeds the view's bytes to the engine. -/
def blake3_update (self : Hasher) (data : List Nat) : Hasher :=
  blake3_hasher_update self data

/-- Embedding of `blake3_digest` (Modules/_blake3/blake3module.c, lines
168-191): rejects non-positive lengths, otherwise reads `length` bytes of
root output at seek offset 0. -/
def blake3_digest (self : Hasher) (length : Int) : Except Blake3Error (List Nat) :=
  if length ≤ 0 then .error .InvalidOutputLength
  else .ok (self.finalizeBytes length.toNat)

/-- One hex digit of `%02x`: `0-9` then `a-f`. -/
def hexDigitChar (n : Nat) : Char :=
  if n < 10 then Char.ofNat (48 + n) else Char.ofNat (87 + n)

/-- The sixteen characters `%02x` can produce. -/
def hexDigits : List Char := "0123456789abcdef".toList

/-- Per-byte `%02x` encoding: high nibble first, then low nibble, two
characters per byte, no separators.  This is what the hardened
`Blake3_hexdigest` writes with `PyUnicode_New`/`PyUnicode_WriteChar`, and
what the mainline `blake3_hexdigest` intends but never produces (see its
doc). -/
def bytesToHex : List Nat → List Char
  | [] => []
  | b :: bs => hexDigitChar (b / 16) :: hexDigitChar (b % 16) :: bytesToHex bs

/-- Embedding of `blake3_hexdigest` (Modules/_blake3/blake3module.c, lines
198-221): it first calls `blake3_digest` with the same arguments
(propagating its errors), then tries to build the result string with
`PyUnicode_FromStringAndSize(NULL, len * 2)` and to fill it through
`(char *)PyUnicode_AS_UNICODE(hex)`.  On the CPython this module targets
(3.13, per its use of `Py_mod_gil`) a NULL buffer with a positive size
raises SystemError and `PyUnicode_AS_UNICODE` no longer exists (removed in
3.12; under pre-3.12 legacy semantics the byte writes land in a wide-char
buffer and yield garbage contents), so the function can never return the hex
encoding: after a successful digest it always fails. -/
def blake3_hexdigest (self : Hasher) (length : Int) : Except Blake3Error (List Char) :=
  match blake3_digest self length with
  | .error e => .error e
  | .ok _ => .error .SystemError

/-- Embedding of `blake3_copy` (Modules/_blake3/blake3module.c, lines
228-239): the new object's hasher is a structure copy of the original. -/
def blake3_copy (self : Hasher) : Hasher := self

/-- The state-and-result view of a `digest` method call: the engine's
finalize reads the accumulator without mutating it (spec 4.4, "does not alter
the HasherState"), so the call returns the bytes alongside the unchanged
state. -/
def blake3_digest_op (self : Hasher) (length : Int) :
    Except Blake3Error (List Nat) × Hasher :=
  (blake3_digest self length, self)

/-- The bytes of a buffer before its first zero byte: the portion a C
function reading the buffer as a NUL-terminated string consumes. -/
def takeUntilNul : List Nat → List Nat
  | [] => []
  | b :: rest => if b = 0 then [] else b :: takeUntilNul rest

/-- Modelled from the spec: the vendored engine's NUL-terminated entry point
`blake3_hasher_init_derive_key(self, const char *context)` is missing from
src/; it measures the context with strlen and defers to the raw variant of
spec 4.5, so only the bytes before the first NUL byte form the hashed
context.  (A buffer containing no NUL byte additionally reads past its end —
memory behavior outside this model; all inputs considered here contain the
terminator inside or at the end of the buffer.) -/
def blake3_hasher_init_derive_key (context : List Nat) : Hasher :=
  blake3_hasher_init_derive_key_raw (takeUntilNul context)

/-- Embedding of `blake3_derive_key` (Modules/_blake3module.c, lines
242-292): length must be in 1-65536 and the context buffer non-empty; then
the code passes `(const char *)ctx.buf` — a pointer with no length — to the
NUL-terminated `blake3_hasher_init_derive_key` (line 275), so the derive-key
hasher is keyed by the context truncated at its first NUL byte; it absorbs
the key material and is finalized to `length` bytes.  (The sibling mainline
wrapper uses the exact-length `_raw` variant instead.) -/
def blake3_derive_key (key_material context : List Nat) (length : Int) :
    Except Blake3Error (List Nat) :=
  if length < 1 ∨ 65536 < length then .error .InvalidOutputLength
  else if context.length = 0 then .error .EmptyContext
  else .ok ((blake3_hasher_update (blake3_hasher_init_derive_key context)
              key_material).finalizeBytes length.toNat)

/-- Embedding of the hardened wrapper's object (Modules/_blake3module.c,
lines 12-16): an engine hasher plus the stored default digest size. -/
structure Blake3Object where
  hasher : Hasher
  digest_size : Int
deriving DecidableEq, Repr

/-- Initial-data handling of the hardened `blake3_new` (Modules/
_blake3module.c, lines 80-90): supplied data is absorbed unconditionally. -/
def withDataAlways (h : Hasher) (data : Option (List Nat)) : Hasher :=
  match data with
  | some d => blake3_hasher_update h d
  | none => h

/-- Embedding of the hardened `blake3_new` (Modules/_blake3module.c, lines
24-93): `digest_size` must be 1-65536; a supplied key must be exactly 32
bytes and selects keyed mode; initial data is then absorbed. -/
def blake3_new (data : Option (List Nat)) (digest_size : Int) (key : Option (List Nat)) :
    Except Blake3Error Blake3Object :=
  if digest_size < 1 ∨ 65536 < digest_size then .error .InvalidDigestSize
  else
    match key with
    | some k =>
        if k.length ≠ 32 then .error .InvalidKeyLength
        else .ok ⟨withDataAlways (blake3_hasher_init_keyed k) data, digest_size⟩
    | none => .ok ⟨withDataAlways blake3_hasher_init data, digest_size⟩

/-- Embedding of the hardened `Blake3_update` (Modules/_blake3module.c, lines
109-122). -/
def Blake3_update (self : Blake3Object) (data : List Nat) : Blake3Object :=
  ⟨blake3_hasher_update self.hasher data, self.digest_size⟩

/-- Embedding of the hardened `Blake3_digest` (Modules/_blake3module.c, lines
128-154): the length defaults to the stored `digest_size`, must be positive,
and that many root-output bytes are read at seek offset 0. -/
def Blake3_digest (self : Blake3Object) (length : Option Int) :
    Except Blake3Error (List Nat) :=
  let l := length.getD self.digest_size
  if l ≤ 0 then .error .InvalidOutputLength
  else .ok (self.hasher.finalizeBytes l.toNat)

/-- Embedding of the hardened `Blake3_hexdigest` (Modules/_blake3module.c,
lines 160-207): calls `Blake3_digest` with the same arguments and writes
`%02x` of each byte. -/
def Blake3_hexdigest (self : Blake3Object) (length : Option Int) :
    Except Blake3Error (List Char) :=
  match Blake3_digest self length with
  | .error e => .error e
  | .ok bs => .ok (bytesToHex bs)

/-- Embedding of the hardened `Blake3_copy` (Modules/_blake3module.c, lines
213-224): copies the digest size and the hasher structure. -/
def Blake3_copy (self : Blake3Object) : Blake3Object :=
  ⟨self.hasher, self.digest_size⟩

/-- Concatenation of a list of byte slices: the whole message a sequence of
`update` calls feeds. -/
def concatSlices : List (List Nat) → List Nat
  | [] => []
  | p :: ps => p ++ concatSlices ps

/-! Helper lemmas about the engine model. -/

theorem update_append (h : Hasher) (a b : List Nat) :
    blake3_hasher_update h (a ++ b) = blake3_hasher_update (blake3_hasher_update h a) b := by
  simp [blake3_hasher_update]

theorem foldl_update_concat (parts : List (List Nat)) :
    ∀ h : Hasher, List.foldl blake3_hasher_update h parts
      = blake3_hasher_update h (concatSlices parts) := by
  induction parts with
  | nil => intro h; rfl
  | cons p ps ih =>
      intro h
      rw [List.foldl_cons, ih, concatSlices, update_append]

theorem pushByte_flags (h : Hasher) (b : Nat) : (Hasher.pushByte h b).flags = h.flags := by
  unfold Hasher.pushByte
  dsimp only
  split <;> rfl

theorem pushByte_keyWords (h : Hasher) (b : Nat) :
    (Hasher.pushByte h b).keyWords = h.keyWords := by
  unfold Hasher.pushByte
  dsimp only
  split <;> rfl

theorem update_flags (input : List Nat) :
    ∀ h : Hasher, (blake3_hasher_update h input).flags = h.flags := by
  induction input with
  | nil => intro h; rfl
  | cons b bs ih =>
      intro h
      show (blake3_hasher_update (Hasher.pushByte h b) bs).flags = h.flags
      rw [ih, pushByte_flags]

theorem update_keyWords (input : List Nat) :
    ∀ h : Hasher, (blake3_hasher_update h input).keyWords = h.keyWords := by
  induction input with
  | nil => intro h; rfl
  | cons b bs ih =>
      intro h
      show (blake3_hasher_update (Hasher.pushByte h b) bs).keyWords = h.keyWords
      rw [ih, pushByte_keyWords]

theorem withData_flags (h0 : Hasher) (data : Option (List Nat)) :
    (withData h0 data).flags = h0.flags := by
  cases data with
  | none => rfl
  | some d =>
      simp only [withData]
      split_ifs
      · exact update_flags d h0
      · rfl

theorem compress_length (cv bw : List Nat) (c bl f : Nat) :
    (compress cv bw c bl f).length = 16 := by
  simp [compress]

theorem bytesOfWords_length (ws : List Nat) : (bytesOfWords ws).length = 4 * ws.length := by
  induction ws with
  | nil => rfl
  | cons w ws ih =>
      simp [bytesOfWords, leBytesOfWord, ih]
      omega

theorem rootBlockBytes_length (o : OutputState) (i : Nat) :
    (o.rootBlockBytes i).length = 64 := by
  simp [OutputState.rootBlockBytes, bytesOfWords_length, compress_length]

theorem blocksUpTo_length (o : OutputState) (n : Nat) :
    (o.blocksUpTo n).length = 64 * n := by
  induction n with
  | zero => rfl
  | succ n ih =>
      simp [OutputState.blocksUpTo, ih, rootBlockBytes_length]
      omega

theorem blocksUpTo_take_stable (o : OutputState) (L n : Nat) (hL : L ≤ 64 * n) :
    ∀ m, n ≤ m → (o.blocksUpTo m).take L = (o.blocksUpTo n).take L := by
  intro m
  induction m with
  | zero =>
      intro hm
      have : n = 0 := Nat.le_zero.mp hm
      subst this
      rfl
  | succ m ih =>
      intro hm
      cases Nat.eq_or_lt_of_le hm with
      | inl hEq => subst hEq; rfl
      | inr hLt =>
          have hnm : n ≤ m := Nat.lt_succ_iff.mp hLt
          show ((o.blocksUpTo m ++ o.rootBlockBytes m).take L) = (o.blocksUpTo n).take L
          rw [List.take_append_of_le_length, ih hnm]
          rw [blocksUpTo_length]
          calc L ≤ 64 * n := hL
            _ ≤ 64 * m := Nat.mul_le_mul_left 64 hnm

theorem finalizeBytes_eq_take (h : Hasher) (len : Nat) :
    h.finalizeBytes len = (h.finalizeOutput.blocksUpTo ((len + 63) / 64)).take len := by
  simp [Hasher.finalizeBytes, blake3_hasher_finalize_seek]

theorem len_le_blocks (len : Nat) : len ≤ 64 * ((len + 63) / 64) := by
  omega

theorem finalizeBytes_length (h : Hasher) (len : Nat) :
    (h.finalizeBytes len).length = len := by
  rw [finalizeBytes_eq_take, List.length_take, blocksUpTo_length]
  exact Nat.min_eq_left (len_le_blocks len)

theorem finalizeBytes_take (h : Hasher) (L1 L2 : Nat) (hle : L1 ≤ L2) :
    (h.finalizeBytes L2).take L1 = h.finalizeBytes L1 := by
  rw [finalizeBytes_eq_take, finalizeBytes_eq_take, List.take_take,
    Nat.min_eq_left hle]
  exact blocksUpTo_take_stable h.finalizeOutput L1 ((L1 + 63) / 64)
    (len_le_blocks L1) ((L2 + 63) / 64) (by omega)

theorem mem_leBytesOfWord_lt (w b : Nat) (hb : b ∈ leBytesOfWord w) : b < 256 := by
  simp [leBytesOfWord] at hb
  rcases hb with h | h | h | h <;> subst h <;> exact Nat.mod_lt _ (by omega)

theorem mem_bytesOfWords_lt (ws : List Nat) (b : Nat) (hb : b ∈ bytesOfWords ws) :
    b < 256 := by
  induction ws with
  | nil => cases hb
  | cons w ws ih =>
      rcases List.mem_append.mp hb with h | h
      · exact mem_leBytesOfWord_lt w b h
      · exact ih h

theorem mem_blocksUpTo_lt (o : OutputState) (n : Nat) (b : Nat)
    (hb : b ∈ o.blocksUpTo n) : b < 256 := by
  induction n with
  | zero => cases hb
  | succ n ih =>
      rcases List.mem_append.mp hb with h | h
      · exact ih h
      · exact mem_bytesOfWords_lt _ b h

theorem mem_finalizeBytes_lt (h : Hasher) (len : Nat) (b : Nat)
    (hb : b ∈ h.finalizeBytes len) : b < 256 := by
  rw [finalizeBytes_eq_take] at hb
  exact mem_blocksUpTo_lt _ _ b (List.take_subset _ _ hb)

theorem bytesToHex_length (bs : List Nat) : (bytesToHex bs).length = 2 * bs.length := by
  induction bs with
  | nil => rfl
  | cons b bs ih =>
      simp [bytesToHex, ih]
      omega

theorem hexDigitChar_mem : ∀ n, n < 16 → hexDigitChar n ∈ hexDigits := by
  decide

theorem mem_bytesToHex (bs : List Nat) (hbs : ∀ b ∈ bs, b < 256) :
    ∀ c ∈ bytesToHex bs, c ∈ hexDigits := by
  induction bs with
  | nil => intro c hc; cases hc
  | cons b bs ih =>
      intro c hc
      have hb : b < 256 := hbs b (List.mem_cons_self b bs)
      rcases hc with _ | ⟨_, hc⟩
      · exact hexDigitChar_mem (b / 16) (by omega)
      · rcases hc with _ | ⟨_, hc⟩
        · exact hexDigitChar_mem (b % 16) (Nat.mod_lt _ (by omega))
        · exact ih (fun x hx => hbs x (List.mem_cons_of_mem b hx)) c hc

/-! Claim theorems. -/

/-- Claim C1: for every hasher state, every partition of a message into
consecutive slices and every output length, feeding the slices through
separate update calls in order and finalizing yields exactly the bytes of
feeding the whole message in one update call and finalizing. -/
theorem streaming_equivalence (h : Hasher) (parts : List (List Nat)) (L : Nat) :
    (List.foldl blake3_hasher_update h parts).finalizeBytes L
      = (blake3_hasher_update h (concatSlices parts)).finalizeBytes L := by
  rw [foldl_update_concat]

/-- Claim C2: digest does not mutate the hasher state: the state coming out
of a digest call is the state that went in, two digest calls with no
intervening update return identical bytes, and an update after a digest
followed by another digest returns the digest of the entire accumulated
input (the bytes appended before the first digest plus the new bytes). -/
theorem digest_non_mutating (h : Hasher) (L : Int) (m x : List Nat) :
    (blake3_digest_op h L).2 = h
    ∧ (blake3_digest_op h L).1 = (blake3_digest_op (blake3_digest_op h L).2 L).1
    ∧ (blake3_digest_op (blake3_hasher_update
          (blake3_digest_op (blake3_hasher_update blake3_hasher_init m) L).2 x) L).1
      = (blake3_digest_op (blake3_hasher_update blake3_hasher_init (m ++ x)) L).1 := by
  refine ⟨rfl, rfl, ?_⟩
  simp only [blake3_digest_op, update_append]

/-- Claim C3 (code bug): the mainline `blake3_hexdigest` never returns the
lowercase hex encoding the claim describes: at the failing input (fresh
default hasher, length 2) it raises SystemError, and for every state and
length it returns no string at all, because its string construction uses
`PyUnicode_FromStringAndSize(NULL, 2*len)` and the removed
`PyUnicode_AS_UNICODE`; the hardened sibling `Blake3_hexdigest`, built on
`PyUnicode_New`/`PyUnicode_WriteChar`, does return exactly the intended
encoding of the digest at the same input. -/
theorem hexdigest_systemerror :
    blake3_hexdigest blake3_hasher_init 2 = .error .SystemError
    ∧ (∀ (self : Hasher) (L : Int) (cs : List Char), blake3_hexdigest self L ≠ .ok cs)
    ∧ Blake3_hexdigest ⟨blake3_hasher_init, 32⟩ (some 2)
        = .ok (bytesToHex (blake3_hasher_init.finalizeBytes 2)) := by
  refine ⟨by decide, ?_, by decide⟩
  intro self L cs h
  cases hD : blake3_digest self L <;> simp [blake3_hexdigest, hD] at h

/-- Claim C4: construction fails with `InvalidKeyLength` when only a key is
supplied and it is not exactly 32 bytes, with `EmptyContext` when a
zero-length derive-key context is supplied (and `derive_key` likewise fails
with `EmptyContext` for an empty context argument), and with
`ConflictingMode` when both a key and a context are supplied; on success the
hasher carries exactly one mode's flag bits, and update never changes the
flag bits or the mode-resolved key words. -/
theorem construction_mode_validation :
    (∀ data k, k.length ≠ 32 → blake3_init data (some k) none = .error .InvalidKeyLength)
    ∧ (∀ data, blake3_init data none (some []) = .error .EmptyContext)
    ∧ (∀ (m : List Nat) (L : Int), 1 ≤ L → L ≤ 65536 →
        blake3_derive_key m [] L = .error .EmptyContext)
    ∧ (∀ data k c, blake3_init data (some k) (some c) = .error .ConflictingMode)
    ∧ (∀ data key context h, blake3_init data key context = .ok h →
        h.flags = 0 ∨ h.flags = KEYED_HASH ∨ h.flags = DERIVE_KEY_MATERIAL)
    ∧ (∀ (h : Hasher) (input : List Nat),
        (blake3_hasher_update h input).flags = h.flags
        ∧ (blake3_hasher_update h input).keyWords = h.keyWords) := by
  refine ⟨?_, ?_, ?_, ?_, ?_, fun h input => ⟨update_flags input h, update_keyWords input h⟩⟩
  · intro data k hk
    simp [blake3_init, hk]
  · intro data
    simp [blake3_init]
  · intro m L h1 h2
    have hnot : ¬ (L < 1 ∨ 65536 < L) := by omega
    unfold blake3_derive_key
    rw [if_neg hnot]
    simp
  · intro data k c
    simp [blake3_init]
  · intro data key context h hok
    cases key with
    | some k =>
        cases context with
        | some c => exact absurd hok (fun hh => Except.noConfusion hh)
        | none =>
            simp only [blake3_init] at hok
            by_cases hklen : k.length = 32
            · rw [if_neg (not_not_intro hklen)] at hok
              obtain rfl := Except.ok.inj hok
              right; left
              rw [withData_flags]
              rfl
            · rw [if_pos hklen] at hok
              exact absurd hok (fun hh => Except.noConfusion hh)
    | none =>
        cases context with
        | some c =>
            simp only [blake3_init] at hok
            by_cases hc : c.length = 0
            · rw [if_pos hc] at hok
              exact absurd hok (fun hh => Except.noConfusion hh)
            · rw [if_neg hc] at hok
              obtain rfl := Except.ok.inj hok
              right; right
              rw [withData_flags]
              rfl
        | none =>
            simp only [blake3_init] at hok
            obtain rfl := Except.ok.inj hok
            left
            rw [withData_flags]
            rfl

theorem construction_mode_validation_witness :
    ([0] : List Nat).length ≠ 32
    ∧ blake3_init none (some [0]) none = .error .InvalidKeyLength
    ∧ blake3_derive_key [5] [] 32 = .error .EmptyContext
    ∧ blake3_init none (some [0]) (some [1]) = .error .ConflictingMode
    ∧ (blake3_hasher_init.flags = 0 ∨ blake3_hasher_init.flags = KEYED_HASH
        ∨ blake3_hasher_init.flags = DERIVE_KEY_MATERIAL) :=
  ⟨by decide,
   construction_mode_validation.1 none [0] (by decide),
   construction_mode_validation.2.2.1 [5] 32 (by decide) (by decide),
   construction_mode_validation.2.2.2.1 none [0] [1],
   construction_mode_validation.2.2.2.2.1 none none none blake3_hasher_init rfl⟩

/-- Claim C5: digest fails with `InvalidOutputLength` exactly when the
requested length is not positive, and otherwise returns exactly that many
bytes. -/
theorem digest_length_spec (self : Hasher) (L : Int) :
    (blake3_digest self L = .error .InvalidOutputLength ↔ L ≤ 0)
    ∧ (0 < L → blake3_digest self L = .ok (self.finalizeBytes L.toNat)
        ∧ (self.finalizeBytes L.toNat).length = L.toNat) := by
  constructor
  · unfold blake3_digest
    split_ifs with hle <;> simp [hle]
  · intro h0
    have hnot : ¬ L ≤ 0 := not_le.mpr h0
    exact ⟨by simp [blake3_digest, hnot], finalizeBytes_length _ _⟩

theorem digest_length_spec_witness :
    (0 : Int) < 5
    ∧ ((blake3_digest blake3_hasher_init 5 = .error .InvalidOutputLength ↔ (5 : Int) ≤ 0)
      ∧ ((0 : Int) < 5 → blake3_digest blake3_hasher_init 5
            = .ok (blake3_hasher_init.finalizeBytes (5 : Int).toNat)
          ∧ (blake3_hasher_init.finalizeBytes (5 : Int).toNat).length = (5 : Int).toNat)) :=
  ⟨by decide, digest_length_spec blake3_hasher_init 5⟩

/-- Claim C6 (code bug): `derive_key` reads the context as a NUL-terminated
C string, so context separation fails at the failing input: the two
different non-empty contexts `0x78 0x00 0x61` and `0x78 0x00 0x62` (same key
material) yield identical byte sequences — both equal to deriving under the
context `0x78` they truncate to — while NUL-free contexts `0x61` and `0x62`
do separate, isolating the truncation as the cause. -/
theorem derive_key_nul_truncation :
    blake3_derive_key [1, 2, 3] [120, 0, 97] 32 = blake3_derive_key [1, 2, 3] [120, 0, 98] 32
    ∧ blake3_derive_key [1, 2, 3] [120, 0, 97] 32 = blake3_derive_key [1, 2, 3] [120] 32
    ∧ blake3_derive_key [1, 2, 3] [97] 32 ≠ blake3_derive_key [1, 2, 3] [98] 32 :=
  ⟨by decide, by decide, by decide⟩

/-- Claim C7: prefix consistency of the extendable output: for any
accumulated state, the output for a shorter requested length is exactly the
corresponding prefix of the output for a longer one (all reads start at
logical offset zero), in particular the first 32 bytes of a 64-byte digest
equal the 32-byte digest. -/
theorem xof_take_consistency (h : Hasher) (L1 L2 : Nat) (hle : L1 ≤ L2) :
    (h.finalizeBytes L2).take L1 = h.finalizeBytes L1 :=
  finalizeBytes_take h L1 L2 hle

theorem xof_take_consistency_witness :
    32 ≤ 64
    ∧ (blake3_hasher_init.finalizeBytes 64).take 32 = blake3_hasher_init.finalizeBytes 32 :=
  ⟨by decide, xof_take_consistency blake3_hasher_init 32 64 (by decide)⟩

/-- Claim C8: clone independence: with `h1` having absorbed "foo" and
`h2 = h1.copy()`, after `h1.update("bar")` and `h2.update("baz")` the digest
of `h1` equals that of a fresh hasher over "foobar", the digest of `h2`
equals that of a fresh hasher over "foobaz", and the two results differ;
the copy is a full value copy of the accumulated state. -/
theorem copy_independence :
    blake3_copy (blake3_hasher_update blake3_hasher_init [102, 111, 111])
      = blake3_hasher_update blake3_hasher_init [102, 111, 111]
    ∧ (blake3_hasher_update (blake3_hasher_update blake3_hasher_init [102, 111, 111])
        [98, 97, 114]).finalizeBytes 32
      = (blake3_hasher_update blake3_hasher_init
          [102, 111, 111, 98, 97, 114]).finalizeBytes 32
    ∧ (blake3_hasher_update (blake3_copy (blake3_hasher_update blake3_hasher_init
          [102, 111, 111])) [98, 97, 122]).finalizeBytes 32
      = (blake3_hasher_update blake3_hasher_init
          [102, 111, 111, 98, 97, 122]).finalizeBytes 32
    ∧ (blake3_hasher_update (blake3_hasher_update blake3_hasher_init [102, 111, 111])
        [98, 97, 114]).finalizeBytes 32
      ≠ (blake3_hasher_update (blake3_copy (blake3_hasher_update blake3_hasher_init
          [102, 111, 111])) [98, 97, 122]).finalizeBytes 32 := by
  refine ⟨rfl, ?_, ?_, ?_⟩
  · rw [show ([102, 111, 111, 98, 97, 114] : List Nat)
        = [102, 111, 111] ++ [98, 97, 114] from rfl, update_append]
  · rw [show ([102, 111, 111, 98, 97, 122] : List Nat)
        = [102, 111, 111] ++ [98, 97, 122] from rfl, update_append]
    rfl
  · decide

/-- Claim C9: a zero-length update is an identity: it leaves the hasher state
(and hence every subsequent digest) unchanged, and constructing with empty
initial data yields the same hasher as constructing with no data argument. -/
theorem empty_update_identity :
    (∀ h : Hasher, blake3_hasher_update h [] = h)
    ∧ (∀ key context, blake3_init (some []) key context = blake3_init none key context)
    ∧ (∀ (h : Hasher) (L : Int),
        blake3_digest (blake3_hasher_update h []) L = blake3_digest h L) := by
  refine ⟨fun h => rfl, ?_, fun h L => rfl⟩
  intro key context
  cases context <;> cases key <;> simp [blake3_init, withData]

/-- Claim C10: the hardened constructor fails with the digest-size
`ValueError` unless `digest_size` lies in 1-65536; on success the stored
`digest_size` is that argument, it is the default length used by digest and
hexdigest when no explicit length is passed, that default digest has exactly
`digest_size` bytes, and copy preserves it. -/
theorem digest_size_policy :
    (∀ data ds key, (ds < 1 ∨ 65536 < ds) → blake3_new data ds key = .error .InvalidDigestSize)
    ∧ (∀ data ds key o, blake3_new data ds key = .ok o →
        o.digest_size = ds
        ∧ Blake3_digest o none = Blake3_digest o (some ds)
        ∧ Blake3_hexdigest o none = Blake3_hexdigest o (some ds)
        ∧ (∀ bs, Blake3_digest o none = .ok bs → bs.length = ds.toNat)
        ∧ (Blake3_copy o).digest_size = o.digest_size) := by
  constructor
  · intro data ds key h
    unfold blake3_new
    rw [if_pos h]
  · intro data ds key o hok
    unfold blake3_new at hok
    by_cases hrange : ds < 1 ∨ 65536 < ds
    · rw [if_pos hrange] at hok
      exact absurd hok (fun hh => Except.noConfusion hh)
    · rw [if_neg hrange] at hok
      have ho : ∃ hsh, o = ⟨hsh, ds⟩ := by
        cases key with
        | some k =>
            dsimp only at hok
            by_cases hklen : k.length = 32
            · rw [if_neg (not_not_intro hklen)] at hok
              exact ⟨_, (Except.ok.inj hok).symm⟩
            · rw [if_pos hklen] at hok
              exact absurd hok (fun hh => Except.noConfusion hh)
        | none => exact ⟨_, (Except.ok.inj hok).symm⟩
      obtain ⟨hsh, rfl⟩ := ho
      refine ⟨rfl, rfl, rfl, ?_, rfl⟩
      intro bs hbs
      simp only [Blake3_digest, Option.getD_none] at hbs
      by_cases hle : ds ≤ 0
      · rw [if_pos hle] at hbs
        exact absurd hbs (fun hh => Except.noConfusion hh)
      · rw [if_neg hle] at hbs
        rw [← Except.ok.inj hbs, finalizeBytes_length]

theorem digest_size_policy_witness :
    ((0 : Int) < 1 ∨ (65536 : Int) < 0)
    ∧ blake3_new none 0 none = .error .InvalidDigestSize
    ∧ ((⟨blake3_hasher_init, 7⟩ : Blake3Object).digest_size = 7
      ∧ Blake3_digest ⟨blake3_hasher_init, 7⟩ none = Blake3_digest ⟨blake3_hasher_init, 7⟩ (some 7)
      ∧ Blake3_hexdigest ⟨blake3_hasher_init, 7⟩ none
        = Blake3_hexdigest ⟨blake3_hasher_init, 7⟩ (some 7)
      ∧ (∀ bs, Blake3_digest ⟨blake3_hasher_init, 7⟩ none = .ok bs → bs.length = (7 : Int).toNat)
      ∧ (Blake3_copy ⟨blake3_hasher_init, 7⟩).digest_size
        = (⟨blake3_hasher_init, 7⟩ : Blake3Object).digest_size) :=
  ⟨by decide,
   digest_size_policy.1 none 0 none (by decide),
   digest_size_policy.2 none 7 none ⟨blake3_hasher_init, 7⟩ rfl⟩

end Blake3
